import Mathlib

/-!
Shallow embedding of the request-dispatch pipeline of the camweb front-door
web server (src/website/camweb.go).  Every definition below is translated
from that file or from the Go standard-library functions it calls
(strings.Contains, strings.Replace, strings.ToLower, path/filepath.Join and
Clean, net/http ServeMux matching, the regexps on lines 41 and 369).
Handlers are modelled as pure functions from a request to the response they
write; wrapped inner handlers are passed as function parameters so that
"the inner handler is never invoked" is expressed by the result being the
same for every inner handler.  The filesystem is passed as an explicit
oracle, and the fallback content handler additionally returns the list of
paths it touched, so that "no filesystem access happens" is expressible.
-/

/-- Convert a string literal to its character list: the whole model works
over explicit character lists so that every definition is executable. -/
def s2l (s : String) : List Char := s.data

/-- An inbound HTTP request as the handlers in camweb.go observe it: the
escaped URL path (req.URL.Path as it appears in the request line), the raw
query string without the leading question mark (req.URL.RawQuery), the Host
header (req.Host), the User-Agent header, and whether the request arrived
over TLS (req.TLS != nil). -/
structure Request where
  path : List Char
  rawQuery : List Char
  host : List Char
  userAgent : List Char
  tls : Bool

/-- The response a single handler invocation writes.  Resp.none records a
handler that returned without writing anything.  Resp.httpError models
http.Error (status line plus the given message body).  Resp.redirect models
http.Redirect with the given status and Location target.  Resp.notFound
models serveError (camweb.go lines 155-159): a 404 status followed by the
page template rendered with title "File "++relpath and the error template's
rendering of the error text as body.  Resp.page models servePage
(lines 121-135): the page template rendered with the given title, subtitle
and content bytes. -/
inductive Resp where
  | none
  | httpError (status : Nat) (body : List Char)
  | redirect (status : Nat) (target : List Char)
  | notFound (relpath : List Char) (errText : List Char)
  | page (title : List Char) (subtitle : List Char) (content : List Char)
  deriving DecidableEq

/-- Go net/url URL.RequestURI() for a server request: the escaped path,
then a question mark and the raw query when the query is non-empty. -/
def requestURI (r : Request) : List Char :=
  r.path ++ (if r.rawQuery = [] then [] else '?' :: r.rawQuery)

/-- Go net/url URL.String() for a URL parsed from a server request line
(no scheme, user or host component set): it coincides with RequestURI. -/
def urlString (r : Request) : List Char := requestURI r

/-- Go strings.Contains s sub: does sub occur as a contiguous substring of
s?  Translated as the left-to-right scan the Go implementation performs. -/
def goContains : List Char → List Char → Bool
  | s, sub =>
    if sub.isPrefixOf s then true
    else
      match s with
      | [] => false
      | _ :: rest => goContains rest sub

/-- Go strings.ToLower, restricted to the ASCII range that the hostnames
in camweb.go live in. -/
def goToLower (s : List Char) : List Char := s.map Char.toLower

/-- isBot (camweb.go lines 226-230): the User-Agent header contains one of
the four configured bot substrings. -/
def isBot (r : Request) : Bool :=
  goContains r.userAgent (s2l "Baidu") || goContains r.userAgent (s2l "bingbot")
    || goContains r.userAgent (s2l "Ezooms") || goContains r.userAgent (s2l "Googlebot")

/-- noWwwHandler.ServeHTTP (camweb.go lines 236-251): first the bot check
on the raw request URI, then host canonicalization, then delegation to the
wrapped handler. -/
def noWwwServeHTTP (inner : Request → Resp) (r : Request) : Resp :=
  if goContains (requestURI r) (s2l "/code/") && goContains (requestURI r) (s2l "?") && isBot r then
    Resp.httpError 401 (s2l "bye")
  else
    if goToLower r.host = s2l "www.camlistore.org" then
      Resp.redirect 302 (s2l "http://camlistore.org" ++ requestURI r)
    else inner r

/-- The TLS-gated wrapper installed around the code-review reverse proxy in
main() (camweb.go lines 291-303).  httpsEnabled says whether the process
was configured with a non-empty HTTPS listen address; when it is false the
raw proxy handler is installed unwrapped. -/
def gerritServeHTTP (httpsEnabled : Bool) (proxy : Request → Resp) (r : Request) : Resp :=
  if httpsEnabled then
    if r.tls then proxy r
    else Resp.redirect 302 (s2l "https://camlistore.org" ++ requestURI r)
  else proxy r

/-- ASCII digit test: the character class backslash-d of the anchored Go
regexp on camweb.go line 369. -/
def isDigitB (c : Char) : Bool := decide ('0' ≤ c) && decide (c ≤ '9')

/-- Matching of the anchored regexp on line 369 against a path: the path
must be the literal "/issue/" followed by one or more digits and nothing
else; on success the digit group is returned. -/
def issueNumMatch (p : List Char) : Option (List Char) :=
  if (s2l "/issue/").isPrefixOf p then
    let rest := p.drop 7
    if !rest.isEmpty && rest.all isDigitB then some rest else none
  else none

/-- issueRedirect (camweb.go lines 371-378). -/
def issueRedirect (r : Request) : Resp :=
  match issueNumMatch r.path with
  | Option.none => Resp.httpError 400 (s2l "Bad request")
  | Option.some ds =>
      Resp.redirect 302 (s2l "https://code.google.com/p/camlistore/issues/detail?id=" ++ ds)

/-- Go strings.Replace oldUrl "%3B" ";" -1 (camweb.go line 393): replace
every occurrence of "%3B" by ";", scanning left to right without
overlap. -/
def fixSemis : List Char → List Char
  | [] => []
  | [c] => [c]
  | [c, d] => [c, d]
  | c :: d :: e :: rest =>
    if c = '%' ∧ d = '3' ∧ e = 'B' then ';' :: fixSemis rest
    else c :: fixSemis (d :: e :: rest)

/-- fixUpGitwebUrls.ServeHTTP (camweb.go lines 391-399): compute the
request URL with every "%3B" replaced by ";"; if nothing changed, pass the
request to the wrapped gitweb handler, otherwise answer a 302 redirect to
the rewritten URL. -/
def fixUpGitwebServeHTTP (inner : Request → Resp) (r : Request) : Resp :=
  let oldUrl := urlString r
  let newUrl := fixSemis oldUrl
  if newUrl = oldUrl then inner r else Resp.redirect 302 newUrl

/-- One match attempt of the regexp on camweb.go line 41 at the start of
s: the literal "<h1>", then a maximal non-empty run of characters other
than a left angle bracket (the group), then the literal "</h1>"; the run
is returned on success.  Because the character class of the group cannot
match a left angle bracket, the Go engine has no other way to match at
this position. -/
def tryH1 (s : List Char) : Option (List Char) :=
  if (s2l "<h1>").isPrefixOf s then
    let rest := s.drop 4
    let inner := rest.takeWhile (fun c => c != '<')
    if inner.isEmpty then Option.none
    else if (s2l "</h1>").isPrefixOf (rest.drop inner.length) then Option.some inner
    else Option.none
  else Option.none

/-- h1TitlePattern.FindSubmatch (camweb.go lines 41 and 205): the group of
the leftmost match of the pattern, or the empty list when the pattern does
not match anywhere - serveFile then leaves the title empty. -/
def findTitle : List Char → List Char
  | [] => []
  | c :: cs =>
    match tryH1 (c :: cs) with
    | Option.some t => t
    | Option.none => findTitle cs

/-- Outcome of os.Lstat as mainHandler consumes it: an error message, or
a FileInfo of which only IsDir() is read. -/
inductive StatRes where
  | err (msg : List Char)
  | ok (isDir : Bool)
  deriving DecidableEq

/-- Outcome of ioutil.ReadFile: an error message or the file bytes. -/
inductive ReadRes where
  | err (msg : List Char)
  | ok (data : List Char)
  deriving DecidableEq

/-- The filesystem oracle the fallback content handler runs against. -/
structure FS where
  lstat : List Char → StatRes
  readFile : List Char → ReadRes

/-- serveFile (camweb.go lines 197-210): read the file, answer the error
page on failure (note line 200 passes absPath, not relPath, as the
relpath argument of serveError), else render the page with the title
extracted from the first h1 pattern match.  The relPath parameter is
unused, exactly as in the source. -/
def serveFile (fs : FS) (relPath absPath : List Char) : Resp :=
  match fs.readFile absPath with
  | ReadRes.err e => Resp.notFound absPath e
  | ReadRes.ok data => Resp.page (findTitle data) [] data

/-- Split a character list at every slash, Go strings.Split s "/": the
empty list splits to one empty field, and every slash starts a new
field. -/
def splitSlash : List Char → List (List Char)
  | [] => [[]]
  | c :: rest =>
    if c = '/' then [] :: splitSlash rest
    else
      match splitSlash rest with
      | [] => [[c]]
      | s :: ss => (c :: s) :: ss

/-- Does the path begin with a slash (the rooted test of Go
path/filepath.Clean)? -/
def isRooted (s : List Char) : Bool :=
  match s with
  | [] => false
  | c :: _ => decide (c = '/')

/-- The element loop of Go path/filepath.Clean over the slash-split
fields, with the output buffer as an explicit stack of fields kept in
reverse order: empty and single-dot fields are skipped; a dotdot field
pops the last real field, cannot pop past the root of a rooted path, and
accumulates at the front of an unrooted path (Go's dotdot marker). -/
def cleanSegs : List (List Char) → List (List Char) → Bool → List (List Char)
  | [], stack, _ => stack.reverse
  | s :: rest, stack, rooted =>
    if s = [] ∨ s = ['.'] then cleanSegs rest stack rooted
    else if s = ['.', '.'] then
      match stack with
      | [] => if rooted then cleanSegs rest [] rooted else cleanSegs rest [s] rooted
      | top :: stk =>
        if top = ['.', '.'] then cleanSegs rest (s :: top :: stk) rooted
        else cleanSegs rest stk rooted
    else cleanSegs rest (s :: stack) rooted

/-- Go path/filepath.Clean for slash-separated paths: apply the element
loop to the slash-split fields and reassemble, restoring the leading
slash of a rooted path and turning an empty result into "." (or "/" when
rooted). -/
def goClean (s : List Char) : List Char :=
  if s = [] then ['.']
  else
    let segs := cleanSegs (splitSlash s) [] (isRooted s)
    if isRooted s then '/' :: List.intercalate (s2l "/") segs
    else if segs = [] then ['.']
    else List.intercalate (s2l "/") segs

/-- Go path/filepath.Join of three elements, as mainHandler calls it:
skip leading empty elements, join the rest with slashes and Clean the
result. -/
def goJoin3 (a b c : List Char) : List Char :=
  if a ≠ [] then goClean (a ++ '/' :: (b ++ '/' :: c))
  else if b ≠ [] then goClean (b ++ '/' :: c)
  else if c ≠ [] then goClean c
  else []

/-- mainHandler (camweb.go lines 161-195) over a filesystem oracle; root
is the value of the root flag (never empty at runtime: main() replaces an
empty flag value by the working directory).  Besides the response it
returns the list of filesystem paths touched, in order, one entry per
Lstat or ReadFile call, so that "no filesystem access" is expressible as
the empty list.  The final switch of the source writes nothing when the
resolved target is still a directory; this is the Resp.none outcome. -/
def mainHandler (root : List Char) (fs : FS) (req : Request) : Resp × List (List Char) :=
  let relPath := req.path.drop 1
  if goContains relPath (s2l "..") then (Resp.none, [])
  else if (s2l "gw/").isPrefixOf relPath then
    (Resp.redirect 302
      (s2l "http://camlistore.org/code/?p=camlistore.git;f=" ++ relPath.drop 3 ++ s2l ";hb=master"), [])
  else
    let absPath := goJoin3 root (s2l "content") relPath
    match fs.lstat absPath with
    | StatRes.err e => (Resp.notFound relPath e, [absPath])
    | StatRes.ok isDir =>
      if isDir then
        let relPath2 := relPath ++ s2l "/index.html"
        let absPath2 := goJoin3 root (s2l "content") relPath2
        match fs.lstat absPath2 with
        | StatRes.err e => (Resp.notFound relPath2 e, [absPath, absPath2])
        | StatRes.ok isDir2 =>
          if isDir2 then (Resp.none, [absPath, absPath2])
          else (serveFile fs relPath2 absPath2, [absPath, absPath2, absPath2])
      else (serveFile fs relPath absPath, [absPath, absPath])

/-- The handlers registered on the ServeMux in main() (camweb.go lines
283-327), identified by kind. -/
inductive HK where
  | favicon | robots | staticDir | talks | pkgDoc | cmdDoc | gerritProxy
  | debugIp | testCgiExact | testCgiFoo | codeRedirect | gitweb | issue | fallback
  deriving DecidableEq

/-- The pattern table built in main(), in registration order, with the
gitweb script configured (the default) and no buildbot host (the
default, so no host-keyed pattern is added). -/
def muxPatterns : List (List Char × HK) :=
  [(s2l "/favicon.ico", HK.favicon), (s2l "/robots.txt", HK.robots),
   (s2l "/static/", HK.staticDir), (s2l "/talks/", HK.talks),
   (s2l "/pkg/", HK.pkgDoc), (s2l "/cmd/", HK.cmdDoc),
   (s2l "/r/", HK.gerritProxy), (s2l "/debugz/ip", HK.debugIp),
   (s2l "/test.cgi", HK.testCgiExact), (s2l "/test.cgi/foo", HK.testCgiFoo),
   (s2l "/code", HK.codeRedirect), (s2l "/code/", HK.gitweb),
   (s2l "/issue/", HK.issue), (s2l "/", HK.fallback)]

/-- Go net/http ServeMux pathMatch: a pattern ending in a slash matches
every path it prefixes, any other pattern matches only the equal path. -/
def pathMatch (pattern p : List Char) : Bool :=
  match pattern.getLast? with
  | Option.none => false
  | Option.some c => if c = '/' then pattern.isPrefixOf p else decide (pattern = p)

/-- One step of ServeMux.match: keep the matching pattern of greatest
length seen so far. -/
def muxStep (p : List Char) (best : Option (List Char × HK)) (e : List Char × HK) :
    Option (List Char × HK) :=
  if pathMatch e.1 p then
    match best with
    | Option.none => Option.some e
    | Option.some b => if b.1.length < e.1.length then Option.some e else Option.some b
  else best

/-- Go net/http ServeMux.match over the registered table: the matching
pattern of greatest length wins. -/
def muxMatch (p : List Char) : Option (List Char × HK) :=
  List.foldl (muxStep p) Option.none muxPatterns

/-- The two ways gitwebHandler.ServeHTTP can dispatch. -/
inductive GWSel where
  | cgi | staticFiles
  deriving DecidableEq

/-- The dispatch condition of gitwebHandler.ServeHTTP (camweb.go lines
217-224): the CGI branch exactly when the URL path is "/code/" or starts
with "/code/?". -/
def gitwebSel (p : List Char) : GWSel :=
  if p = s2l "/code/" ∨ (s2l "/code/?").isPrefixOf p then GWSel.cgi else GWSel.staticFiles

/-- gitwebHandler.ServeHTTP itself, delegating by the dispatch
condition. -/
def gitwebServeHTTP (cgiH staticH : Request → Resp) (r : Request) : Resp :=
  match gitwebSel r.path with
  | GWSel.cgi => cgiH r
  | GWSel.staticFiles => staticH r

/-- http.RedirectHandler "/code/" 302 as registered for the exact path
"/code" (camweb.go line 311). -/
def codeRedirectServeHTTP (r : Request) : Resp := Resp.redirect 302 (s2l "/code/")

/- ---------------------------------------------------------------- -/
/- Supporting lemmas about the Go string primitives.                 -/
/- ---------------------------------------------------------------- -/

/-- Bridge between the boolean Go-style check and the Mathlib ordering:
restated here so that every later proof can cite it uniformly. -/
theorem startsIff (l p : List Char) : l.isPrefixOf p = true ↔ l <+: p :=
  List.isPrefixOf_iff_prefix

/-- A leading occurrence is in particular a contiguous occurrence. -/
theorem containsOfStarts {l p : List Char} (h : l <+: p) : l <:+: p :=
  List.IsPrefix.isInfix h

theorem isPrefixOf_self_append (l t : List Char) : l.isPrefixOf (l ++ t) = true := by
  rw [startsIff]
  exact List.prefix_append l t

theorem eq_append_drop_of_isPrefixOf (l p : List Char) (h : l.isPrefixOf p = true) :
    p = l ++ p.drop l.length := by
  rcases (startsIff l p).mp h with ⟨t, ht⟩
  have hd : p.drop l.length = t := by
    rw [← ht, List.drop_left]
  rw [hd, ht]

theorem goContains_correct (s sub : List Char) : goContains s sub = true ↔ sub <:+: s := by
  induction s with
  | nil =>
    constructor
    · intro h
      have hp : sub.isPrefixOf ([] : List Char) = true := by
        by_contra hc
        simp only [goContains, Bool.not_eq_true] at h
        rw [Bool.not_eq_true] at hc
        rw [hc] at h
        simp at h
      exact containsOfStarts ((startsIff _ _).mp hp)
    · intro h
      have : sub = [] := List.eq_nil_of_infix_nil h
      subst this
      simp [goContains, List.isPrefixOf]
  | cons a rest ih =>
    constructor
    · intro h
      by_cases hp : sub.isPrefixOf (a :: rest) = true
      · exact containsOfStarts ((startsIff _ _).mp hp)
      · rw [List.infix_cons_iff]
        right
        apply ih.mp
        rw [Bool.not_eq_true] at hp
        simp only [goContains, hp] at h
        simpa using h
    · intro h
      rw [List.infix_cons_iff] at h
      rcases h with h | h
      · have hp := (startsIff _ _).mpr h
        simp [goContains, hp]
      · have := ih.mpr h
        by_cases hp : sub.isPrefixOf (a :: rest) = true
        · simp [goContains, hp]
        · rw [Bool.not_eq_true] at hp
          simp [goContains, hp, this]

/- ---------------------------------------------------------------- -/
/- C1: bot filtering happens first and yields 401.                   -/
/- ---------------------------------------------------------------- -/

/-- C1: for every request whose raw request URI contains "/code/" and a
query string and whose User-Agent contains any of the configured bot
substrings (Baidu, bingbot, Ezooms, Googlebot), the filter middleware
answers 401 for every possible inner handler, so neither the CGI backend
nor the host-canonicalization redirect is ever reached - in particular a
bot request carrying the secondary hostname is blocked, not redirected. -/
theorem c1_bot_blocked_before_host_check (inner : Request → Resp) (r : Request)
    (hcode : goContains (requestURI r) (s2l "/code/") = true)
    (hq : goContains (requestURI r) (s2l "?") = true)
    (hbot : goContains r.userAgent (s2l "Baidu") = true
      ∨ goContains r.userAgent (s2l "bingbot") = true
      ∨ goContains r.userAgent (s2l "Ezooms") = true
      ∨ goContains r.userAgent (s2l "Googlebot") = true) :
    noWwwServeHTTP inner r = Resp.httpError 401 (s2l "bye") := by
  have hb : isBot r = true := by
    unfold isBot
    rcases hbot with h | h | h | h <;> simp [h]
  unfold noWwwServeHTTP
  simp [hcode, hq, hb]

theorem c1_witness :
    noWwwServeHTTP (fun _ => Resp.none)
      (Request.mk (s2l "/code/") (s2l "p=camlistore.git") (s2l "www.camlistore.org")
        (s2l "Mozilla/5.0 Googlebot/2.1") false)
      = Resp.httpError 401 (s2l "bye") :=
  c1_bot_blocked_before_host_check _ _ (by decide) (by decide)
    (Or.inr (Or.inr (Or.inr (by decide))))

/- ---------------------------------------------------------------- -/
/- C5: host canonicalization redirect.                               -/
/- ---------------------------------------------------------------- -/

/-- C5: for every request whose lowercased Host equals the secondary
hostname www.camlistore.org and which the bot check does not reject, the
filter middleware answers a 302 redirect to the same path and query on
camlistore.org, for every possible inner handler (the dispatcher is never
reached). -/
theorem c5_www_redirected_to_canonical (inner : Request → Resp) (r : Request)
    (hb : (goContains (requestURI r) (s2l "/code/") && goContains (requestURI r) (s2l "?")
        && isBot r) = false)
    (hh : goToLower r.host = s2l "www.camlistore.org") :
    noWwwServeHTTP inner r
      = Resp.redirect 302
          (s2l "http://camlistore.org" ++ (r.path ++ (if r.rawQuery = [] then [] else '?' :: r.rawQuery))) := by
  unfold noWwwServeHTTP
  rw [hb]
  simp [hh, requestURI]

theorem c5_witness :
    noWwwServeHTTP (fun _ => Resp.none)
      (Request.mk (s2l "/docs") (s2l "a=b") (s2l "WWW.Camlistore.ORG") (s2l "Mozilla/5.0") false)
      = Resp.redirect 302 (s2l "http://camlistore.org/docs?a=b") :=
  (c5_www_redirected_to_canonical (fun _ => Resp.none)
    (Request.mk (s2l "/docs") (s2l "a=b") (s2l "WWW.Camlistore.ORG") (s2l "Mozilla/5.0") false)
    (by decide) (by decide)).trans (by decide)

/- ---------------------------------------------------------------- -/
/- C6: TLS gate on the code-review proxy route.                      -/
/- ---------------------------------------------------------------- -/

/-- C6: when HTTPS serving is enabled, a plaintext request to the
code-review proxy route is answered with a 302 redirect to the HTTPS URL
on the canonical hostname instead of the proxied response; a TLS request
is handed to the proxy; and when HTTPS serving is disabled the proxy is
always used, TLS or not. -/
theorem c6_tls_gate (proxy : Request → Resp) (r : Request) :
    (r.tls = false →
      gerritServeHTTP true proxy r
        = Resp.redirect 302 (s2l "https://camlistore.org" ++ requestURI r))
    ∧ (r.tls = true → gerritServeHTTP true proxy r = proxy r)
    ∧ gerritServeHTTP false proxy r = proxy r := by
  refine ⟨fun h => ?_, fun h => ?_, ?_⟩
  · simp [gerritServeHTTP, h]
  · simp [gerritServeHTTP, h]
  · simp [gerritServeHTTP]

theorem c6_witness :
    gerritServeHTTP true (fun _ => Resp.page (s2l "proxied") [] [])
      (Request.mk (s2l "/r/123") [] (s2l "camlistore.org") (s2l "Mozilla/5.0") false)
      = Resp.redirect 302 (s2l "https://camlistore.org/r/123") :=
  ((c6_tls_gate (fun _ => Resp.page (s2l "proxied") [] [])
    (Request.mk (s2l "/r/123") [] (s2l "camlistore.org") (s2l "Mozilla/5.0") false)).1
    rfl).trans (by decide)

/- ---------------------------------------------------------------- -/
/- C7: the issue-tracker redirect.                                   -/
/- ---------------------------------------------------------------- -/

/-- C7: a GET of /issue/ followed by one or more digits and nothing else
is answered with a 302 redirect to the external issue tracker URL whose
id parameter is exactly those digits; every other path is answered with
status 400 and the minimal body "Bad request". -/
theorem c7_issue_redirect :
    (∀ (ds q h ua : List Char) (t : Bool), ds ≠ [] → ds.all isDigitB = true →
      issueRedirect (Request.mk (s2l "/issue/" ++ ds) q h ua t)
        = Resp.redirect 302 (s2l "https://code.google.com/p/camlistore/issues/detail?id=" ++ ds))
    ∧ (∀ (p q h ua : List Char) (t : Bool),
      (∀ ds, ds ≠ [] → ds.all isDigitB = true → p ≠ s2l "/issue/" ++ ds) →
      issueRedirect (Request.mk p q h ua t) = Resp.httpError 400 (s2l "Bad request")) := by
  constructor
  · intro ds q h ua t hne hdig
    have hpre : (s2l "/issue/").isPrefixOf (s2l "/issue/" ++ ds) = true :=
      isPrefixOf_self_append _ _
    have hdrop : (s2l "/issue/" ++ ds).drop 7 = ds := by
      have h7 : (s2l "/issue/").length = 7 := rfl
      rw [← h7, List.drop_left]
    have hne2 : ds.isEmpty = false := by
      cases ds with
      | nil => exact absurd rfl hne
      | cons a l => rfl
    simp only [issueRedirect, issueNumMatch, Request.mk.injEq, hpre, if_true, hdrop,
      hne2, hdig, Bool.not_false, Bool.and_self, if_true]
  · intro p q h ua t hnot
    have hm : issueNumMatch p = Option.none := by
      unfold issueNumMatch
      by_cases hpre : (s2l "/issue/").isPrefixOf p = true
      · rw [hpre]
        simp only [if_true]
        by_cases hrest : (!(p.drop 7).isEmpty && (p.drop 7).all isDigitB) = true
        · exfalso
          have hne : p.drop 7 ≠ [] := by
            intro hnil
            rw [hnil] at hrest
            simp at hrest
          have hdig : (p.drop 7).all isDigitB = true := by
            simp only [Bool.and_eq_true] at hrest
            exact hrest.2
          have hp : p = s2l "/issue/" ++ p.drop 7 := by
            have := eq_append_drop_of_isPrefixOf (s2l "/issue/") p hpre
            simpa using this
          exact hnot (p.drop 7) hne hdig hp
        · rw [Bool.not_eq_true] at hrest
          rw [hrest]
          simp
      · rw [Bool.not_eq_true] at hpre
        rw [hpre]
        simp
    simp [issueRedirect, hm]

theorem c7_witness :
    issueRedirect (Request.mk (s2l "/issue/1234") [] [] [] false)
      = Resp.redirect 302 (s2l "https://code.google.com/p/camlistore/issues/detail?id=1234")
    ∧ issueRedirect (Request.mk (s2l "/issue/abc") [] [] [] false)
      = Resp.httpError 400 (s2l "Bad request") := by
  constructor
  · exact (c7_issue_redirect.1 (s2l "1234") [] [] [] false (by decide) (by decide)).trans (by decide)
  · refine c7_issue_redirect.2 (s2l "/issue/abc") [] [] [] false ?_
    intro ds hne hdig hp
    have hds : ds = s2l "abc" := by
      have h2 : s2l "/issue/" ++ s2l "abc" = s2l "/issue/" ++ ds := hp
      exact (List.append_cancel_left h2).symm
    rw [hds] at hdig
    exact absurd hdig (by decide)

/- ---------------------------------------------------------------- -/
/- Lemmas about fixSemis (strings.Replace of "%3B" by ";").          -/
/- ---------------------------------------------------------------- -/

theorem fixSemis_id_outside :
    ∀ (n : Nat) (s : List Char), s.length ≤ n → ¬ (s2l "%3B") <:+: s → fixSemis s = s := by
  intro n
  induction n with
  | zero =>
    intro s hs _
    cases s with
    | nil => rfl
    | cons c cs => simp at hs
  | succ n ih =>
    intro s hs hinf
    cases s with
    | nil => rfl
    | cons c cs =>
      cases cs with
      | nil => rfl
      | cons d es =>
        cases es with
        | nil => rfl
        | cons e rest =>
          by_cases h3 : c = '%' ∧ d = '3' ∧ e = 'B'
          · exfalso
            apply hinf
            rcases h3 with ⟨hc, hd, he⟩
            subst hc; subst hd; subst he
            exact ⟨[], rest, rfl⟩
          · have heq : fixSemis (c :: d :: e :: rest) = c :: fixSemis (d :: e :: rest) := by
              simp [fixSemis, h3]
            rw [heq]
            congr 1
            apply ih
            · simp at hs ⊢
              omega
            · intro hinf2
              exact hinf (List.infix_cons_iff.mpr (Or.inr hinf2))

theorem fixSemis_length_le :
    ∀ (n : Nat) (s : List Char), s.length ≤ n → (fixSemis s).length ≤ s.length := by
  intro n
  induction n with
  | zero =>
    intro s hs
    cases s with
    | nil => simp [fixSemis]
    | cons c cs => simp at hs
  | succ n ih =>
    intro s hs
    cases s with
    | nil => simp [fixSemis]
    | cons c cs =>
      cases cs with
      | nil => simp [fixSemis]
      | cons d es =>
        cases es with
        | nil => simp [fixSemis]
        | cons e rest =>
          by_cases h3 : c = '%' ∧ d = '3' ∧ e = 'B'
          · have heq : fixSemis (c :: d :: e :: rest) = ';' :: fixSemis rest := by
              simp [fixSemis, h3]
            rw [heq]
            have hrec := ih rest (by simp at hs ⊢; omega)
            simp only [List.length_cons] at hrec ⊢
            omega
          · have heq : fixSemis (c :: d :: e :: rest) = c :: fixSemis (d :: e :: rest) := by
              simp [fixSemis, h3]
            rw [heq]
            have hrec := ih (d :: e :: rest) (by simp at hs ⊢; omega)
            simp only [List.length_cons] at hrec ⊢
            omega

theorem fixSemis_shrinks :
    ∀ (n : Nat) (s : List Char), s.length ≤ n → (s2l "%3B") <:+: s →
      (fixSemis s).length < s.length := by
  intro n
  induction n with
  | zero =>
    intro s hs hinf
    cases s with
    | nil => exact absurd (List.eq_nil_of_infix_nil hinf) (by decide)
    | cons c cs => simp at hs
  | succ n ih =>
    intro s hs hinf
    cases s with
    | nil => exact absurd (List.eq_nil_of_infix_nil hinf) (by decide)
    | cons c cs =>
      cases cs with
      | nil =>
        have hlen := hinf.length_le
        have h3 : (s2l "%3B").length = 3 := rfl
        rw [h3] at hlen
        simp at hlen
      | cons d es =>
        cases es with
        | nil =>
          have hlen := hinf.length_le
          have h3 : (s2l "%3B").length = 3 := rfl
          rw [h3] at hlen
          simp at hlen
        | cons e rest =>
          by_cases h3 : c = '%' ∧ d = '3' ∧ e = 'B'
          · have heq : fixSemis (c :: d :: e :: rest) = ';' :: fixSemis rest := by
              simp [fixSemis, h3]
            rw [heq]
            have hle := fixSemis_length_le rest.length rest (le_refl _)
            simp only [List.length_cons]
            omega
          · have heq : fixSemis (c :: d :: e :: rest) = c :: fixSemis (d :: e :: rest) := by
              simp [fixSemis, h3]
            rw [heq]
            have hinf2 : (s2l "%3B") <:+: d :: e :: rest := by
              rcases List.infix_cons_iff.mp hinf with hpre | htail
              · exfalso
                rcases hpre with ⟨t2, ht⟩
                have hx : '%' :: '3' :: 'B' :: t2 = c :: d :: e :: rest := ht
                injection hx with a1 b1
                injection b1 with a2 b2
                injection b2 with a3 _
                exact h3 ⟨a1.symm, a2.symm, a3.symm⟩
              · exact htail
            have hrec := ih (d :: e :: rest) (by simp at hs ⊢; omega) hinf2
            simp only [List.length_cons] at hrec ⊢
            omega

theorem fixSemis_eq_self_iff (s : List Char) :
    fixSemis s = s ↔ goContains s (s2l "%3B") = false := by
  constructor
  · intro h
    by_contra hc
    rw [Bool.not_eq_false] at hc
    have hinf := (goContains_correct s (s2l "%3B")).mp hc
    have := fixSemis_shrinks s.length s (le_refl _) hinf
    rw [h] at this
    exact lt_irrefl _ this
  · intro h
    apply fixSemis_id_outside s.length s (le_refl _)
    intro hinf
    have := (goContains_correct s (s2l "%3B")).mpr hinf
    rw [h] at this
    exact Bool.noConfusion this

/- ---------------------------------------------------------------- -/
/- C4: the gitweb URL fixer.                                         -/
/- ---------------------------------------------------------------- -/

/-- C4: for every request whose URL (as the wrapper reconstructs it)
contains "%3B", the response is a 302 redirect to that URL with every
occurrence of "%3B" replaced by ";" (the left-to-right replacement
fixSemis, which alters nothing else), for every inner handler - so the
wrapped gitweb handler is not invoked; and for every request whose URL
contains no "%3B", the wrapper passes the request through unchanged. -/
theorem c4_fixup_gitweb_urls (inner : Request → Resp) (r : Request) :
    (goContains (urlString r) (s2l "%3B") = true →
      fixUpGitwebServeHTTP inner r = Resp.redirect 302 (fixSemis (urlString r)))
    ∧ (goContains (urlString r) (s2l "%3B") = false →
      fixUpGitwebServeHTTP inner r = inner r) := by
  constructor
  · intro h
    have hne : ¬ fixSemis (urlString r) = urlString r := by
      intro he
      have hf := (fixSemis_eq_self_iff (urlString r)).mp he
      rw [h] at hf
      exact Bool.noConfusion hf
    unfold fixUpGitwebServeHTTP
    simp [hne]
  · intro h
    have he : fixSemis (urlString r) = urlString r := (fixSemis_eq_self_iff _).mpr h
    unfold fixUpGitwebServeHTTP
    simp [he]

theorem c4_witness :
    fixUpGitwebServeHTTP (fun _ => Resp.none)
      (Request.mk (s2l "/code/") (s2l "p=camlistore.git%3Bf=doc.txt%3Bhb=master") [] [] false)
      = Resp.redirect 302 (s2l "/code/?p=camlistore.git;f=doc.txt;hb=master")
    ∧ fixUpGitwebServeHTTP (fun _ => Resp.page (s2l "gw") [] [])
      (Request.mk (s2l "/code/") (s2l "p=camlistore.git") [] [] false)
      = Resp.page (s2l "gw") [] [] := by
  constructor
  · exact ((c4_fixup_gitweb_urls (fun _ => Resp.none)
      (Request.mk (s2l "/code/") (s2l "p=camlistore.git%3Bf=doc.txt%3Bhb=master") [] [] false)).1
      (by decide)).trans (by decide)
  · exact (c4_fixup_gitweb_urls (fun _ => Resp.page (s2l "gw") [] [])
      (Request.mk (s2l "/code/") (s2l "p=camlistore.git") [] [] false)).2 (by decide)

/- ---------------------------------------------------------------- -/
/- C9: leftmost-match title extraction.                              -/
/- ---------------------------------------------------------------- -/

theorem findTitle_correct (s : List Char) :
    ((∀ i, tryH1 (s.drop i) = Option.none) → findTitle s = [])
    ∧ (∀ i t, tryH1 (s.drop i) = Option.some t →
        (∀ j, j < i → tryH1 (s.drop j) = Option.none) → findTitle s = t) := by
  induction s with
  | nil =>
    constructor
    · intro _
      rfl
    · intro i t hm _
      rw [List.drop_nil] at hm
      exact Option.noConfusion hm
  | cons c cs ih =>
    cases hm0 : tryH1 (c :: cs) with
    | some t0 =>
      constructor
      · intro h
        have h0 := h 0
        rw [List.drop_zero] at h0
        rw [hm0] at h0
        exact Option.noConfusion h0
      · intro i t hm hmin
        cases i with
        | zero =>
          rw [List.drop_zero] at hm
          rw [hm0] at hm
          injection hm with hEq
          simp only [findTitle, hm0]
          exact hEq
        | succ i =>
          have h0 := hmin 0 (Nat.succ_pos i)
          rw [List.drop_zero] at h0
          rw [hm0] at h0
          exact Option.noConfusion h0
    | none =>
      have hfeq : findTitle (c :: cs) = findTitle cs := by simp [findTitle, hm0]
      constructor
      · intro h
        rw [hfeq]
        apply ih.1
        intro i
        have := h (i + 1)
        simpa using this
      · intro i t hm hmin
        cases i with
        | zero =>
          rw [List.drop_zero] at hm
          rw [hm0] at hm
          exact Option.noConfusion hm
        | succ i =>
          rw [hfeq]
          apply ih.2 i t
          · simpa using hm
          · intro j hj
            have := hmin (j + 1) (by omega)
            simpa using this

/-- C9: for every content file the fallback handler serves, the rendered
page's title is the group of the leftmost match of the h1 pattern - the
inner text of the first occurrence, at the least starting offset, of the
literal form "<h1>", a non-empty run of characters other than "<", then
"</h1>" - and the empty string when the pattern matches nowhere in the
file bytes. -/
theorem c9_first_h1_title (fs : FS) (relPath absPath data : List Char)
    (hread : fs.readFile absPath = ReadRes.ok data) :
    serveFile fs relPath absPath = Resp.page (findTitle data) [] data
    ∧ ((∀ i, tryH1 (data.drop i) = Option.none) → findTitle data = [])
    ∧ (∀ i t, tryH1 (data.drop i) = Option.some t →
        (∀ j, j < i → tryH1 (data.drop j) = Option.none) → findTitle data = t) := by
  refine ⟨?_, (findTitle_correct data).1, (findTitle_correct data).2⟩
  simp [serveFile, hread]

theorem c9_witness :
    serveFile (FS.mk (fun _ => StatRes.ok false) (fun _ => ReadRes.ok (s2l "<h1></h1><p>x</p><h1>Hi</h1>")))
      (s2l "doc.html") (s2l "r/content/doc.html")
      = Resp.page (s2l "Hi") [] (s2l "<h1></h1><p>x</p><h1>Hi</h1>") :=
  ((c9_first_h1_title
    (FS.mk (fun _ => StatRes.ok false) (fun _ => ReadRes.ok (s2l "<h1></h1><p>x</p><h1>Hi</h1>")))
    (s2l "doc.html") (s2l "r/content/doc.html") (s2l "<h1></h1><p>x</p><h1>Hi</h1>") rfl).1).trans
    (by decide)

/- ---------------------------------------------------------------- -/
/- C3: traversal paths are refused without any filesystem access.    -/
/- ---------------------------------------------------------------- -/

/-- C3: for every request whose slash-stripped relative path contains
".." - in particular whenever it contains a parent-directory traversal
segment - the fallback content handler returns immediately: it writes no
response and touches no filesystem path at all, so no file outside the
content root is ever read. -/
theorem c3_traversal_refused (root : List Char) (fs : FS) (req : Request)
    (h : goContains (req.path.drop 1) (s2l "..") = true) :
    mainHandler root fs req = (Resp.none, []) := by
  simp only [mainHandler]
  rw [if_pos h]

theorem c3_witness :
    mainHandler (s2l "r")
      (FS.mk (fun _ => StatRes.ok false) (fun _ => ReadRes.ok (s2l "secret")))
      (Request.mk (s2l "/a/../etc/passwd") [] [] [] false)
      = (Resp.none, []) :=
  c3_traversal_refused (s2l "r")
    (FS.mk (fun _ => StatRes.ok false) (fun _ => ReadRes.ok (s2l "secret")))
    (Request.mk (s2l "/a/../etc/passwd") [] [] [] false) (by decide)

/- ---------------------------------------------------------------- -/
/- C2: which requests the fallback handler answers.                  -/
/- ---------------------------------------------------------------- -/

/-- C2 counterexample: the claim says every request handled by the
fallback content handler gets some response written; but for the request
path "/a/../b" mainHandler returns without writing anything at all (the
traversal guard is a bare return), even over a filesystem on which every
stat and read would succeed - so the request is silently dropped. -/
theorem c2_counterexample :
    mainHandler (s2l "root")
      (FS.mk (fun _ => StatRes.ok false) (fun _ => ReadRes.ok (s2l "hello")))
      (Request.mk (s2l "/a/../b") [] (s2l "camlistore.org") (s2l "Mozilla/5.0") false)
      = (Resp.none, []) := by decide

/-- C2 amended: the fallback content handler writes a response for every
request except exactly the two silent cases of the source: a
slash-stripped path containing "..", and a path that resolves to a
directory whose index.html target is itself a directory (the final switch
of mainHandler then has no matching case).  Moreover every slash-rooted
path matches some pattern of the routing table (the fallback pattern "/"
at least), so the dispatcher itself - a total function - always selects
exactly one handler. -/
theorem c2_every_request_answered :
    (∀ (root : List Char) (fs : FS) (req : Request),
      (mainHandler root fs req).1 = Resp.none ↔
        (goContains (req.path.drop 1) (s2l "..") = true
          ∨ (goContains (req.path.drop 1) (s2l "..") = false
            ∧ (s2l "gw/").isPrefixOf (req.path.drop 1) = false
            ∧ fs.lstat (goJoin3 root (s2l "content") (req.path.drop 1)) = StatRes.ok true
            ∧ fs.lstat (goJoin3 root (s2l "content") (req.path.drop 1 ++ s2l "/index.html"))
                = StatRes.ok true)))
    ∧ (∀ tail : List Char, (muxMatch ('/' :: tail)).isSome = true) := by
  constructor
  · intro root fs req
    rw [show req.path.drop 1 = req.path.tail from List.drop_one req.path]
    by_cases h1 : goContains req.path.tail (s2l "..") = true
    · simp [mainHandler, h1]
    · have h1f : goContains req.path.tail (s2l "..") = false := by
        cases hx : goContains req.path.tail (s2l "..")
        · rfl
        · exact absurd hx h1
      by_cases h2 : s2l "gw/" <+: req.path.tail
      · simp [mainHandler, h1f, h2]
      · have h2b : (s2l "gw/").isPrefixOf req.path.tail = false := by
          cases hx : (s2l "gw/").isPrefixOf req.path.tail
          · rfl
          · exact absurd ((startsIff _ _).mp hx) h2
        cases h3 : fs.lstat (goJoin3 root (s2l "content") req.path.tail) with
        | err e => simp [mainHandler, h1f, h2, h2b, h3]
        | ok d =>
          cases d with
          | false =>
            cases h4 : fs.readFile (goJoin3 root (s2l "content") req.path.tail) with
            | err e => simp [mainHandler, serveFile, h1f, h2, h2b, h3, h4]
            | ok data => simp [mainHandler, serveFile, h1f, h2, h2b, h3, h4]
          | true =>
            cases h5 : fs.lstat
                (goJoin3 root (s2l "content") (req.path.tail ++ s2l "/index.html")) with
            | err e => simp [mainHandler, h1f, h2, h2b, h3, h5]
            | ok d2 =>
              cases d2 with
              | true => simp [mainHandler, h1f, h2, h2b, h3, h5]
              | false =>
                cases h4 : fs.readFile
                    (goJoin3 root (s2l "content") (req.path.tail ++ s2l "/index.html")) with
                | err e => simp [mainHandler, serveFile, h1f, h2, h2b, h3, h5, h4]
                | ok data => simp [mainHandler, serveFile, h1f, h2, h2b, h3, h5, h4]
  · intro tail
    have hm : pathMatch (s2l "/") ('/' :: tail) = true := by
      show pathMatch ['/'] ('/' :: tail) = true
      simp [pathMatch, List.isPrefixOf]
    have hdec : muxPatterns = muxPatterns.dropLast ++ [(s2l "/", HK.fallback)] := by decide
    unfold muxMatch
    rw [hdec, List.foldl_append]
    simp only [List.foldl_cons, List.foldl_nil]
    cases List.foldl (muxStep ('/' :: tail)) Option.none muxPatterns.dropLast with
    | none => simp [muxStep, hm]
    | some b =>
      simp only [muxStep, hm, if_true]
      split <;> rfl

/- ---------------------------------------------------------------- -/
/- C10: gitweb dispatch and the /code redirect.                      -/
/- ---------------------------------------------------------------- -/

/-- C10: within the gitweb route, for paths without a literal question
mark (the URL path component of a parsed request), the CGI handler is
selected exactly for the path "/code/", and every other path - in
particular any longer path under /code/ - goes to the gitweb static file
tree; and the routing table sends the exact path "/code" to the
registered redirect handler, which answers a 302 redirect to "/code/". -/
theorem c10_gitweb_dispatch :
    (∀ p : List Char, ¬ '?' ∈ p → (gitwebSel p = GWSel.cgi ↔ p = s2l "/code/"))
    ∧ muxMatch (s2l "/code") = Option.some (s2l "/code", HK.codeRedirect)
    ∧ ∀ r : Request, codeRedirectServeHTTP r = Resp.redirect 302 (s2l "/code/") := by
  refine ⟨?_, by decide, fun r => rfl⟩
  intro p hq
  constructor
  · intro hc
    by_cases hcond : p = s2l "/code/" ∨ (s2l "/code/?").isPrefixOf p = true
    · rcases hcond with hcond | hcond
      · exact hcond
      · exfalso
        rcases (startsIff _ _).mp hcond with ⟨t2, ht⟩
        apply hq
        rw [← ht]
        exact List.mem_append.mpr (Or.inl (by decide))
    · exfalso
      have : gitwebSel p = GWSel.staticFiles := by
        unfold gitwebSel
        rw [if_neg hcond]
      rw [this] at hc
      exact GWSel.noConfusion hc
  · intro hp
    subst hp
    decide

theorem c10_witness :
    gitwebSel (s2l "/code/") = GWSel.cgi
    ∧ gitwebSel (s2l "/code/gitweb.css") = GWSel.staticFiles := by
  constructor
  · exact (c10_gitweb_dispatch.1 (s2l "/code/") (by decide)).mpr rfl
  · cases hs : gitwebSel (s2l "/code/gitweb.css") with
    | cgi =>
      exact absurd ((c10_gitweb_dispatch.1 (s2l "/code/gitweb.css") (by decide)).mp hs)
        (by decide)
    | staticFiles => rfl

/- ---------------------------------------------------------------- -/
/- Lemmas about goClean, towards C8.                                 -/
/- ---------------------------------------------------------------- -/

theorem splitSlash_ne_nil (s : List Char) : splitSlash s ≠ [] := by
  induction s with
  | nil => simp [splitSlash]
  | cons c rest ih =>
    by_cases h : c = '/'
    · simp [splitSlash, h]
    · simp only [splitSlash, if_neg h]
      split <;> simp

theorem splitSlash_append (a b : List Char) :
    splitSlash (a ++ '/' :: b) = splitSlash a ++ splitSlash b := by
  induction a with
  | nil => simp [splitSlash]
  | cons c rest ih =>
    by_cases h : c = '/'
    · simp [splitSlash, h, ih]
    · simp only [List.cons_append, splitSlash, if_neg h, List.append_eq]
      rw [ih]
      cases hsp : splitSlash rest with
      | nil => exact absurd hsp (splitSlash_ne_nil rest)
      | cons s ss => simp

theorem cleanSegs_skip (A : List (List Char)) :
    ∀ (B : List (List Char)) (st : List (List Char)) (r : Bool),
      cleanSegs (A ++ [] :: B) st r = cleanSegs (A ++ B) st r := by
  induction A with
  | nil =>
    intro B st r
    simp [cleanSegs]
  | cons a A ih =>
    intro B st r
    simp only [List.cons_append]
    by_cases h1 : a = [] ∨ a = ['.']
    · simp only [cleanSegs, if_pos h1]
      exact ih B st r
    · by_cases h2 : a = ['.', '.']
      · simp only [cleanSegs, if_neg h1, if_pos h2]
        cases st with
        | nil =>
          cases r with
          | true => simp only [if_pos rfl, ite_true]; exact ih B [] true
          | false => simp only [ite_false]; exact ih B [a] false
        | cons top stk =>
          by_cases ht : top = ['.', '.']
          · simp only [if_pos ht]
            exact ih B (a :: top :: stk) r
          · simp only [if_neg ht]
            exact ih B stk r
      · simp only [cleanSegs, if_neg h1, if_neg h2]
        exact ih B (a :: st) r

theorem isRooted_append (X z : List Char) (h : X ≠ []) :
    isRooted (X ++ z) = isRooted X := by
  cases X with
  | nil => exact absurd rfl h
  | cons c l => rfl

theorem append_cons_ne_nil (X : List Char) (c : Char) (z : List Char) :
    X ++ c :: z ≠ [] := by
  cases X <;> simp

theorem goClean_collapse (X Y : List Char) (hX : X ≠ []) :
    goClean (X ++ '/' :: '/' :: Y) = goClean (X ++ '/' :: Y) := by
  have h1 : X ++ '/' :: '/' :: Y ≠ [] := append_cons_ne_nil X '/' ('/' :: Y)
  have h2 : X ++ '/' :: Y ≠ [] := append_cons_ne_nil X '/' Y
  have hs1 : splitSlash (X ++ '/' :: '/' :: Y) = splitSlash X ++ [] :: splitSlash Y := by
    rw [splitSlash_append X ('/' :: Y)]
    simp [splitSlash]
  have hs2 : splitSlash (X ++ '/' :: Y) = splitSlash X ++ splitSlash Y :=
    splitSlash_append X Y
  unfold goClean
  rw [if_neg h1, if_neg h2, isRooted_append X ('/' :: '/' :: Y) hX,
    isRooted_append X ('/' :: Y) hX, hs1, hs2, cleanSegs_skip]

/- ---------------------------------------------------------------- -/
/- C8: directory requests resolve to their index.html.               -/
/- ---------------------------------------------------------------- -/

/-- C8: for a request whose content path resolves to a directory, the
fallback handler re-resolves index.html under that directory; so a
request for /t/ (trailing slash) and a request for /t/index.html, when
the first stats as a directory and the second as a plain file, produce
the same written response over any filesystem - path cleaning makes the
two index.html resolutions name the same file, and serveFile's output
depends only on that file. -/
theorem c8_dir_index_same_output (root : List Char) (fs : FS) (t q h ua : List Char)
    (tl : Bool)
    (hroot : root ≠ [])
    (h1 : goContains (t ++ s2l "/") (s2l "..") = false)
    (h2 : goContains (t ++ s2l "/index.html") (s2l "..") = false)
    (hg1 : (s2l "gw/").isPrefixOf (t ++ s2l "/") = false)
    (hg2 : (s2l "gw/").isPrefixOf (t ++ s2l "/index.html") = false)
    (hd : fs.lstat (goJoin3 root (s2l "content") (t ++ s2l "/")) = StatRes.ok true)
    (hf : fs.lstat (goJoin3 root (s2l "content") (t ++ s2l "/index.html")) = StatRes.ok false) :
    (mainHandler root fs (Request.mk ('/' :: (t ++ s2l "/")) q h ua tl)).1
      = (mainHandler root fs (Request.mk ('/' :: (t ++ s2l "/index.html")) q h ua tl)).1 := by
  have hJ : goJoin3 root (s2l "content") ((t ++ s2l "/") ++ s2l "/index.html")
      = goJoin3 root (s2l "content") (t ++ s2l "/index.html") := by
    unfold goJoin3
    rw [if_pos hroot, if_pos hroot]
    have e1 : root ++ '/' :: (s2l "content" ++ '/' :: ((t ++ s2l "/") ++ s2l "/index.html"))
        = (root ++ '/' :: (s2l "content" ++ '/' :: t)) ++ '/' :: '/' :: s2l "index.html" := by
      have hx : s2l "/index.html" = '/' :: s2l "index.html" := rfl
      have hy : s2l "/" = ['/'] := rfl
      rw [hx, hy]
      simp
    have e2 : root ++ '/' :: (s2l "content" ++ '/' :: (t ++ s2l "/index.html"))
        = (root ++ '/' :: (s2l "content" ++ '/' :: t)) ++ '/' :: s2l "index.html" := by
      have hx : s2l "/index.html" = '/' :: s2l "index.html" := rfl
      rw [hx]
      simp
    rw [e1, e2]
    exact goClean_collapse _ _ (by simp)
  have hdrop1 : ('/' :: (t ++ s2l "/")).drop 1 = t ++ s2l "/" := rfl
  have hdrop2 : ('/' :: (t ++ s2l "/index.html")).drop 1 = t ++ s2l "/index.html" := rfl
  have n1 : ¬ goContains (t ++ s2l "/") (s2l "..") = true := by simp [h1]
  have n2 : ¬ goContains (t ++ s2l "/index.html") (s2l "..") = true := by simp [h2]
  have ng1 : ¬ (s2l "gw/").isPrefixOf (t ++ s2l "/") = true := by simp [hg1]
  have ng2 : ¬ (s2l "gw/").isPrefixOf (t ++ s2l "/index.html") = true := by simp [hg2]
  simp only [mainHandler, hdrop1, hdrop2]
  rw [if_neg n1]
  rw [if_neg ng1]
  rw [if_neg n2]
  rw [if_neg ng2]
  simp only [hJ, hd, hf]
  simp only [ite_true, ite_false]
  cases hr : fs.readFile (goJoin3 root (s2l "content") (t ++ s2l "/index.html")) with
  | err e => simp [serveFile, hr]
  | ok data => simp [serveFile, hr]

theorem c8_witness :
    (mainHandler (s2l "r")
      (FS.mk
        (fun p => if p = s2l "r/content/foo" then StatRes.ok true
          else if p = s2l "r/content/foo/index.html" then StatRes.ok false
          else StatRes.err (s2l "no such file"))
        (fun p => if p = s2l "r/content/foo/index.html" then ReadRes.ok (s2l "<h1>Foo</h1>")
          else ReadRes.err (s2l "no such file")))
      (Request.mk ('/' :: (s2l "foo" ++ s2l "/")) [] [] [] false)).1
    = (mainHandler (s2l "r")
      (FS.mk
        (fun p => if p = s2l "r/content/foo" then StatRes.ok true
          else if p = s2l "r/content/foo/index.html" then StatRes.ok false
          else StatRes.err (s2l "no such file"))
        (fun p => if p = s2l "r/content/foo/index.html" then ReadRes.ok (s2l "<h1>Foo</h1>")
          else ReadRes.err (s2l "no such file")))
      (Request.mk ('/' :: (s2l "foo" ++ s2l "/index.html")) [] [] [] false)).1 :=
  c8_dir_index_same_output (s2l "r") _ (s2l "foo") [] [] [] false
    (by decide) (by decide) (by decide) (by decide) (by decide) (by decide) (by decide)

theorem c2_witness :
    (mainHandler (s2l "r")
      (FS.mk (fun _ => StatRes.err (s2l "ENOENT")) (fun _ => ReadRes.err (s2l "ENOENT")))
      (Request.mk (s2l "/missing/page") [] [] [] false)).1 ≠ Resp.none := by
  intro hnone
  rcases (c2_every_request_answered.1 (s2l "r")
      (FS.mk (fun _ => StatRes.err (s2l "ENOENT")) (fun _ => ReadRes.err (s2l "ENOENT")))
      (Request.mk (s2l "/missing/page") [] [] [] false)).mp hnone with hc | hsd
  · exact absurd hc (by decide)
  · exact absurd hsd.2.2.1 (by decide)

/- sanity checks of the embedding on concrete inputs -/
example : goClean (s2l "r/content/foo/") = s2l "r/content/foo" := by decide
example : goClean (s2l "/a//b/./c/../d") = s2l "/a/b/d" := by decide
example : goClean (s2l "../a") = s2l "../a" := by decide
example : goClean (s2l "/..") = s2l "/" := by decide
example : goJoin3 (s2l "r") (s2l "content") (s2l "foo//index.html") = s2l "r/content/foo/index.html" := by decide
example : fixSemis (s2l "/code/?p=x%3Bf=y%3Bz") = s2l "/code/?p=x;f=y;z" := by decide
example : findTitle (s2l "<h1></h1><h1>Hi</h1>") = s2l "Hi" := by decide
example : findTitle (s2l "no title") = [] := by decide
example : muxMatch (s2l "/code") = Option.some (s2l "/code", HK.codeRedirect) := by decide
example : muxMatch (s2l "/code/abc") = Option.some (s2l "/code/", HK.gitweb) := by decide
example : muxMatch (s2l "/other") = Option.some (s2l "/", HK.fallback) := by decide
